import Mathlib

/-!
# Verification of the MAgent clarification / workspace front-end logic

Shallow embedding of the TypeScript source of the MAgent repository:

* `src/src/pages/QuestioningPage.tsx` — question normalization (`normalize`),
  de-duplicated question insertion (`pushQuestionIfNew`), next-question
  selection (`askNextQuestion`), answer submission (`handleSendMessage`),
  progress (`getProgressPercentage`), and backend-question normalization
  (`startClarificationProcess`).
* `src/src/pages/WorkspacePage.tsx` — the `workflow.progress_updated` event
  handler updating per-agent progress.
* `src/utils/eel-api.ts` — the `EelAPI.listen` push + poll event delivery.

JavaScript strings are modelled as `List Char`; JavaScript `Set` objects are
modelled as lists in insertion order where elements are only inserted when
absent; React `setState` functional updates are modelled as sequential state
transformation; machine numbers carrying progress / importance are modelled
as `Int` (backend priorities are integers per the data model), and the one
rational computation (`Math.round` of a ratio) is modelled over `ℚ`.
-/

namespace MAgent

/-! ## Characters: whitespace and punctuation classes of `normalize`

`QuestioningPage.tsx` lines 47–53:

```
const normalize = (text) => (
  (text || '').trim().toLowerCase()
    .replace(/[\s\t\n\r]+/g, ' ')
    .replace(/[，。！？、；：:;\-—…·•\.,!\?\(\)\[\]\x7b\x7d<>“”‘’\"'《》【】]+/g, '')
);
```
-/

/-- The whitespace characters matched by `\s` in the whitespace-collapsing
regex and removed by `String.prototype.trim`: the full ECMAScript
WhiteSpace and LineTerminator classes (ASCII whitespace, NBSP, the Zs
space separators U+1680, U+2000–U+200A, U+202F, U+205F, U+3000, the line
separators U+2028/U+2029, and the BOM U+FEFF). -/
def wsChars : List Char :=
  [' ', '\t', '\n', '\r', '\x0b', '\x0c',
   '\u00A0', '\u1680', '\u2000', '\u2001', '\u2002', '\u2003', '\u2004',
   '\u2005', '\u2006', '\u2007', '\u2008', '\u2009', '\u200A', '\u2028',
   '\u2029', '\u202F', '\u205F', '\u3000', '\uFEFF']

/-- Character is whitespace. -/
def isWS (c : Char) : Bool := decide (c ∈ wsChars)

/-- The punctuation characters removed by the second `replace` of
`normalize` (the class contains both CJK and ASCII punctuation). -/
def punctChars : List Char :=
  ['，', '。', '！', '？', '、', '；', '：', ':', ';', '-', '—', '…', '·', '•',
   '.', ',', '!', '?', '(', ')', '[', ']', Char.ofNat 123, Char.ofNat 125,
   '<', '>', '“', '”', '‘', '’', Char.ofNat 34, Char.ofNat 39, '《', '》',
   '【', '】']

/-- Character is in the punctuation class of `normalize`. -/
def isPunct (c : Char) : Bool := decide (c ∈ punctChars)

/-- ASCII lower-casing, the effect of `String.prototype.toLowerCase` on each
character relevant here (`A`–`Z` map down by 32, everything else in the
source texts is fixed). -/
def lowerChar (c : Char) : Char :=
  if 65 ≤ c.toNat ∧ c.toNat ≤ 90 then Char.ofNat (c.toNat + 32) else c

/-- `String.prototype.trim`: drop whitespace from both ends. -/
def trimWS (l : List Char) : List Char :=
  (((l.dropWhile isWS).reverse).dropWhile isWS).reverse

/-- `.replace(/[\s\t\n\r]+/g, ' ')`: every maximal whitespace run becomes a
single space.  The scan emits the replacement space when the current run
ends (at the last whitespace character of the run). -/
def collapseWS : List Char → List Char
  | [] => []
  | [c] => if isWS c then [' '] else [c]
  | c :: d :: rest =>
    if isWS c then
      if isWS d then collapseWS (d :: rest) else ' ' :: collapseWS (d :: rest)
    else c :: collapseWS (d :: rest)

/-- `.replace(/[…punctuation…]+/g, '')`: every punctuation run is deleted,
i.e. every punctuation character is removed. -/
def erasePunct (l : List Char) : List Char := l.filter (fun c => !(isPunct c))

/-- `normalize` of QuestioningPage.tsx: trim, lower-case, collapse
whitespace runs to single spaces, then delete punctuation runs. -/
def normalize (l : List Char) : List Char :=
  erasePunct (collapseWS ((trimWS l).map lowerChar))

/-! ## Character-class facts -/

/-- `ChatMessage.type`. -/
inductive MsgType
  | bot
  | user
deriving DecidableEq, Repr

/-- The `ChatMessage` interface (the `timestamp` is immaterial to the
verified logic and omitted; message ids embed the `Date.now()` value). -/
structure ChatMessage where
  id : String
  type : MsgType
  content : List Char
  clarificationId : Option String := none
  isImportant : Bool := false
deriving DecidableEq, Repr

/-- The `Clarification` interface of `src/src/types/index.ts`.  Importance
is an integer: backend priorities are integers 1–10 per the data model. -/
structure Clarification where
  question : List Char
  answer : Option (List Char) := none
  slot_name : String
  importance : Int
  suggested_answers : List String := []
deriving DecidableEq, Repr

/-- The state of `QuestioningPage` relevant to the clarification logic. -/
structure QState where
  messages : List ChatMessage
  clarifications : List Clarification
  completedSlots : List String
  askedSlots : List String
  isCompleted : Bool
  isProcessing : Bool
deriving DecidableEq, Repr

/-- JavaScript truthiness of an optional string (`undefined`/`null` and
`""` are falsy). -/
def optStrTruthy : Option String → Bool
  | none => false
  | some s => !(s == "")

/-- The duplicate-text test of `pushQuestionIfNew`:
`m.type === 'bot' && !m.isImportant && normalize(m.content) === norm`. -/
def isDupBotText (norm : List Char) (m : ChatMessage) : Bool :=
  m.type == MsgType.bot && !m.isImportant && normalize m.content == norm

/-- The question message built by `pushQuestionIfNew`. -/
def questionMessage (slot : String) (text : List Char) (now : Nat) :
    ChatMessage :=
  { id := "question-" ++ slot ++ "-" ++ toString now,
    type := MsgType.bot, content := text, clarificationId := some slot }

/-- `pushQuestionIfNew` (QuestioningPage.tsx lines 56–80): insert the
question only when the slot was never asked/completed and no bot
non-important message has the same normalized text; returns the new state
and the `inserted` flag. -/
def pushQuestionIfNew (st : QState) (slot : String) (text : List Char)
    (now : Nat) : QState × Bool :=
  if slot == "" || text.isEmpty then (st, false)
  else
    let norm := normalize text
    if st.askedSlots.contains slot || st.completedSlots.contains slot
        || st.messages.any (isDupBotText norm) then
      (st, false)
    else
      ({ st with
          messages := st.messages ++ [questionMessage slot text now],
          askedSlots := st.askedSlots ++ [slot] }, true)

/-! ## Next-question selection (`askNextQuestion`) -/

/-- One insertion step of a stable descending insertion sort on
`importance`; an element moves before the first strictly-less-important
element and stays after equally-important earlier elements. -/
def insertByImportance (c : Clarification) :
    List Clarification → List Clarification
  | [] => [c]
  | d :: ds =>
    if c.importance ≥ d.importance then c :: d :: ds
    else d :: insertByImportance c ds

/-- The model of `unanswered.sort((a, b) => b.importance - a.importance)`:
JavaScript `Array.prototype.sort` is stable, so the result is the stable
descending sort by importance. -/
def sortByImportanceDesc : List Clarification → List Clarification
  | [] => []
  | c :: cs => insertByImportance c (sortByImportanceDesc cs)

/-- `clarifications.filter(c => !completedSlots.has(c.slot_name))`. -/
def unansweredOf (st : QState) : List Clarification :=
  st.clarifications.filter (fun c => !(st.completedSlots.contains c.slot_name))

/-- The clarification picked by `askNextQuestion`
(`unanswered.sort(...)[0]`, `none` when no unanswered slot remains). -/
def selectNextClarification (st : QState) : Option Clarification :=
  (sortByImportanceDesc (unansweredOf st)).head?

/-- The completion message appended by `finishClarification`. -/
def completionMessage : ChatMessage :=
  { id := "completion", type := MsgType.bot,
    content := "🎉 太好了！我已经收集到足够的信息。现在我将把您的想法和澄清信息发送给AI团队进行深度优化。".data,
    isImportant := true }

/-- The state effect of `finishClarification` (QuestioningPage.tsx lines
313–347): mark the session completed and append the completion message;
the backend `finish_clarification` call and the navigation are external
effects. -/
def finishClarificationStep (st : QState) : QState :=
  { st with isCompleted := true,
            messages := st.messages ++ [completionMessage] }

/-- Content of the suggested-answers helper message. -/
def suggestionsContent (c : Clarification) : List Char :=
  ("💡 建议选项：\n" ++ String.intercalate "\n"
    ((c.suggested_answers.enum).map
      (fun p => toString (p.1 + 1) ++ ". " ++ p.2))).data

/-- The suggestions message built by `askNextQuestion`. -/
def suggestionsMessage (c : Clarification) (now : Nat) : ChatMessage :=
  { id := "suggestions-" ++ c.slot_name ++ "-" ++ toString now,
    type := MsgType.bot, content := suggestionsContent c }

/-- Insert the suggestions message unless one with the same slot-keyed id
prefix is already present. -/
def pushSuggestions (st : QState) (c : Clarification) (now : Nat) : QState :=
  if st.messages.any
      (fun m => m.id.startsWith ("suggestions-" ++ c.slot_name)) then st
  else { st with messages := st.messages ++ [suggestionsMessage c now] }

/-- `askNextQuestion` (QuestioningPage.tsx lines 206–239): when no
unanswered clarification remains, finish; otherwise push the question of
the highest-importance unanswered clarification and possibly its
suggestions. -/
def askNextQuestion (st : QState) (now : Nat) : QState :=
  match selectNextClarification st with
  | none => finishClarificationStep st
  | some c =>
    let pr := pushQuestionIfNew st c.slot_name c.question now
    let st1 := if pr.2 then { pr.1 with isProcessing := false } else pr.1
    if pr.2 && !c.suggested_answers.isEmpty then pushSuggestions st1 c now
    else st1

/-! ## Answer submission (`handleSendMessage`) -/

/-- `messages.filter(m => m.type === 'bot' && m.clarificationId).pop()`. -/
def lastBotQuestion (msgs : List ChatMessage) : Option ChatMessage :=
  (msgs.filter
    (fun m => m.type == MsgType.bot && optStrTruthy m.clarificationId)).getLast?

/-- The slot the user is currently answering: the clarification id of the
last bot question message, when truthy. -/
def currentSlot (msgs : List ChatMessage) : Option String :=
  match lastBotQuestion msgs with
  | some m => if optStrTruthy m.clarificationId then m.clarificationId else none
  | none => none

/-- A backend `next_question` payload. -/
structure NextQuestion where
  question : List Char
  slot_name : String
deriving DecidableEq, Repr

/-- The backend response to `submit_clarification_answer` as consumed by
`handleSendMessage`. -/
structure SubmitResult where
  success : Bool
  next_question : Option NextQuestion := none
  completed : Bool := false
deriving DecidableEq, Repr

/-- `setClarifications(prev => prev.map(c => c.slot_name === id ?
{...c, answer} : c))`. -/
def overwriteAnswer (s : String) (ans : List Char) (c : Clarification) :
    Clarification :=
  if c.slot_name == s then { c with answer := some ans } else c

/-- Record the submitted answer: overwrite the slot's answer and add the
slot to `completedSlots` (a `Set`, so only when absent). -/
def recordAnswer (st : QState) (s : String) (ans : List Char) : QState :=
  { st with
      clarifications := st.clarifications.map (overwriteAnswer s ans),
      completedSlots :=
        if st.completedSlots.contains s then st.completedSlots
        else st.completedSlots ++ [s] }

/-- The tail of `handleSendMessage`: clear processing, and fall back to the
local `askNextQuestion` when the backend did not provide the next
question and the session is not completed. -/
def afterSubmit (st : QState) (backendProvidedNext : Bool) (now : Nat) :
    QState :=
  let st1 := { st with isProcessing := true }
  let st2 :=
    if !backendProvidedNext && !st1.isCompleted then askNextQuestion st1 now
    else st1
  { st2 with isProcessing := false }

/-- The user chat message appended by `handleSendMessage`. -/
def userMessage (input : List Char) (now : Nat) : ChatMessage :=
  { id := "user-" ++ toString now, type := MsgType.user,
    content := trimWS input }

/-- `handleSendMessage` (QuestioningPage.tsx lines 241–311).  `input` is
the `currentInput` state; `res` is the backend response to
`submit_clarification_answer` (`none` models a null session id or a thrown
call). -/
def handleSendMessage (st : QState) (input : List Char)
    (res : Option SubmitResult) (now : Nat) : QState :=
  if (trimWS input).isEmpty || st.isCompleted then st
  else
    let st1 := { st with messages := st.messages ++ [userMessage input now] }
    match currentSlot st.messages with
    | none => afterSubmit st1 false now
    | some s =>
      let st2 := recordAnswer st1 s (trimWS input)
      match res with
      | none => afterSubmit st2 false now
      | some r =>
        if !r.success then afterSubmit st2 false now
        else
          match r.next_question with
          | some nq =>
            let pr := pushQuestionIfNew st2 nq.slot_name nq.question now
            afterSubmit pr.1 pr.2 now
          | none =>
            if r.completed then finishClarificationStep st2
            else afterSubmit st2 false now

/-! ## Session start normalization and progress -/

/-- A question as returned by the backend `start_clarification_session`. -/
structure BackendQuestion where
  question : List Char
  slot_name : String
  priority : Option Int := none
deriving DecidableEq, Repr

/-- The fixed suggested answers attached in `startClarificationProcess`. -/
def defaultSuggestedAnswers : List String := ["好的", "否", "需要更多信息"]

/-- One element of the `normalized` mapping of `startClarificationProcess`
(QuestioningPage.tsx lines 121–128):
`importance: Math.max(1, Math.min(10, q.priority ?? 7))`. -/
def normalizeQuestion (q : BackendQuestion) : Clarification :=
  { question := q.question, slot_name := q.slot_name,
    importance := max 1 (min 10 (q.priority.getD 7)),
    suggested_answers := defaultSuggestedAnswers }

/-- The `normalized` clarification list of `startClarificationProcess`. -/
def normalizeQuestions (qs : List BackendQuestion) : List Clarification :=
  qs.map normalizeQuestion

/-- `Math.round`: round half toward positive infinity. -/
def jsRound (x : ℚ) : Int := ⌊x + 1 / 2⌋

/-- `getProgressPercentage` (QuestioningPage.tsx lines 368–371). -/
def getProgressPercentage (st : QState) : Int :=
  if st.clarifications.length = 0 then 0
  else jsRound (((st.completedSlots.length : ℚ)
    / (st.clarifications.length : ℚ)) * 100)

/-! ## WorkspacePage: the `workflow.progress_updated` handler

`src/src/pages/WorkspacePage.tsx` lines 42–70. -/

/-- The `AgentStatus` union of `src/src/types/index.ts`. -/
inductive AgentStatus
  | pending
  | running
  | completed
  | error
deriving DecidableEq, Repr

/-- The `AgentState` interface (start/end times omitted). -/
structure AgentState where
  name : String
  status : AgentStatus
  progress : Int
  message : String
deriving DecidableEq, Repr

/-- The `data` payload of a `workflow.progress_updated` event.  `progress`
is `none` when the field is absent or not a number (then `Number(x) || 0`
yields 0). -/
structure ProgressData where
  session_id : Option String := none
  stage : String
  progress : Option Int := none
  message : String
deriving DecidableEq, Repr

/-- A pushed event envelope as seen by the handler (`ev.data` may be
absent). -/
structure ProgressEvent where
  data : Option ProgressData := none
deriving DecidableEq, Repr

/-- The WorkspacePage state touched by the event handler. -/
structure WState where
  workflowSessionId : Option String
  agentStates : List AgentState
  logs : List String
deriving DecidableEq, Repr

/-- `Number(progress) || 0`: a non-numeric progress coerces to 0. -/
def numOrZero : Option Int → Int
  | none => 0
  | some n => n

/-- The per-agent update of the handler:
`nextProgress = Math.max(agent.progress, Number(progress) || 0)`,
status from `nextProgress`, stored progress `Math.min(nextProgress, 100)`. -/
def updateAgent (p : Int) (msg : String) (a : AgentState) : AgentState :=
  let nextProgress := max a.progress p
  let status :=
    if nextProgress ≥ 100 then AgentStatus.completed
    else if nextProgress > 0 then AgentStatus.running
    else AgentStatus.pending
  { a with status := status, progress := min nextProgress 100, message := msg }

/-- The log line appended by the handler. -/
def logLine (timeStr : String) (d : ProgressData) : String :=
  timeStr ++ ": [" ++ d.stage ++ "] " ++ d.message ++ " ("
    ++ (match d.progress with | none => "NaN" | some n => toString n)
    ++ "%)"

/-- The `workflow.progress_updated` listener body (WorkspacePage.tsx lines
47–67): ignore events without data; ignore events whose truthy session id
differs from the selected workflow session id; otherwise append a log line
and update every agent card. -/
def handleProgressEvent (ws : WState) (timeStr : String)
    (ev : ProgressEvent) : WState :=
  match ev.data with
  | none => ws
  | some d =>
    if optStrTruthy ws.workflowSessionId && optStrTruthy d.session_id
        && !(d.session_id == ws.workflowSessionId) then ws
    else
      { ws with
          logs := ws.logs ++ [logLine timeStr d],
          agentStates :=
            ws.agentStates.map (updateAgent (numOrZero d.progress) d.message) }

/-- The six initial agent cards of WorkspacePage. -/
def initAgentStates : List AgentState :=
  ["Clarifier", "Innovator", "Critic", "Synthesizer", "Verifier",
   "Summarizer"].map
    (fun n => { name := n, status := AgentStatus.pending, progress := 0,
                message := "等待启动..." })

/-- The initial WorkspacePage state for a selected workflow session. -/
def initWState (wf : Option String) : WState :=
  { workflowSessionId := wf, agentStates := initAgentStates, logs := [] }

/-- Fold the handler over a sequence of (timestamp, event) pairs. -/
def applyProgressEvents (ws : WState)
    (evs : List (String × ProgressEvent)) : WState :=
  evs.foldl (fun w p => handleProgressEvent w p.1 p.2) ws

/-! ## EelAPI.listen: push delivery plus poll replay

`src/utils/eel-api.ts` (`EelAPI.listen`): a real-time `eel-event` listener
plus a 2-second poll of `get_event_history`; both paths invoke the
callback on every type-matching event, with no further filtering. -/

/-- An event on the bus: monotonic id and a type (topic). -/
structure BusEvent where
  id : Nat
  type : String
deriving DecidableEq, Repr

/-- An occurrence observed by a `listen` subscription: either one pushed
`eel-event`, or one `get_event_history` poll response. -/
inductive ListenArrival
  | push (ev : BusEvent)
  | pollBatch (evs : List BusEvent)
deriving DecidableEq, Repr

/-- `if (!event || ev.type === event)`: an empty/absent topic matches
everything. -/
def matchesTopic (topic : Option String) (ev : BusEvent) : Bool :=
  if optStrTruthy topic then topic == some ev.type else true

/-- The sequence of callback invocations produced by `EelAPI.listen` for a
topic over a sequence of arrivals: each matching pushed event fires the
callback once, and each matching element of each poll response fires the
callback once. -/
def listenDeliveries (topic : Option String) (arrs : List ListenArrival) :
    List BusEvent :=
  arrs.flatMap fun a =>
    match a with
    | .push ev => if matchesTopic topic ev then [ev] else []
    | .pollBatch evs => evs.filter (matchesTopic topic)

/-- Number of callback invocations carrying event id `i`. -/
def deliveryCount (topic : Option String) (arrs : List ListenArrival)
    (i : Nat) : Nat :=
  ((listenDeliveries topic arrs).filter (fun ev => ev.id == i)).length

/-- Number of matching occurrences of id `i` in one arrival. -/
def arrivalMatchCount (topic : Option String) (i : Nat) :
    ListenArrival → Nat
  | .push ev => if matchesTopic topic ev && ev.id == i then 1 else 0
  | .pollBatch evs =>
    (evs.filter (fun ev => matchesTopic topic ev && ev.id == i)).length

/-! ## Spec-modelled backend ClarificationEngine (for C4)

The clarification engine is Python backend code (`src/` of the original
repository tree) that is not part of the sources here; only its TypeScript
caller is.  The definitions below are modelled from the spec §4.2. -/

/-- Modelled from the spec: a backend `Slot` instance of the
ClarificationEngine (spec §3), carrying its optional recorded answer. -/
structure SpecSlot where
  name : String
  importance : Int
  question_template : List Char
  answer : Option (List Char) := none
deriving DecidableEq, Repr

/-- Modelled from the spec: the `status` of a ClarificationSession. -/
inductive SpecStatus
  | collecting
  | completed
deriving DecidableEq, Repr

/-- Modelled from the spec: a backend ClarificationSession (spec §3):
slots in catalog order, asked slot names, and the session status. -/
structure SpecClarSession where
  slots : List SpecSlot
  asked : List String
  status : SpecStatus
deriving DecidableEq, Repr

/-- Modelled from the spec: stable descending insertion on slot
importance, for the highest-importance selection rule with catalog-order
tie-breaking. -/
def specInsertSlot (c : SpecSlot) : List SpecSlot → List SpecSlot
  | [] => [c]
  | d :: ds =>
    if c.importance ≥ d.importance then c :: d :: ds
    else d :: specInsertSlot c ds

/-- Modelled from the spec: stable descending sort on slot importance. -/
def specSortSlots : List SpecSlot → List SpecSlot
  | [] => []
  | c :: cs => specInsertSlot c (specSortSlots cs)

/-- Modelled from the spec: the highest-importance unasked slot (ties
broken by catalog order), `none` when every slot has been asked. -/
def specSelectNext (sess : SpecClarSession) : Option SpecSlot :=
  (specSortSlots
    (sess.slots.filter (fun sl => !(sess.asked.contains sl.name)))).head?

/-- Modelled from the spec: `submit_answer(session_id, slot_name, answer)`
of the backend ClarificationEngine (spec §4.2, absent from the sources):
fails with NotFound (`none`) on an unknown slot name, records the answer
with overwrite semantics, selects the next question by the
highest-importance-unasked rule and marks it asked; when no unasked slot
remains it returns `completed = true` with no question and leaves the
session status untouched (it does not auto-invoke `finish`). -/
def spec_submit_answer (sess : SpecClarSession) (slot_name : String)
    (ans : List Char) :
    Option (SpecClarSession × Option SpecSlot × Bool) :=
  if sess.slots.all (fun sl => !(sl.name == slot_name)) then none
  else
    let sess1 := { sess with
      slots := sess.slots.map
        (fun sl => if sl.name == slot_name then { sl with answer := some ans }
                   else sl) }
    match specSelectNext sess1 with
    | some sl => some ({ sess1 with asked := sess1.asked ++ [sl.name] },
        some sl, false)
    | none => some (sess1, none, true)

/-- Modelled from the spec: `finish(session_id)` freezes the session; it
is the only operation that sets the status to `completed`. -/
def spec_finish (sess : SpecClarSession) : SpecClarSession :=
  { sess with status := SpecStatus.completed }

/-- C9: every clarification built by `startClarificationProcess` from the
questions of `start_clarification_session` has importance
`max 1 (min 10 (priority ?? 7))`: clamped into `[1, 10]`, and `7` when the
priority is absent. -/
theorem normalizeQuestions_importance (qs : List BackendQuestion)
    (c : Clarification) (h : c ∈ normalizeQuestions qs) :
    (1 ≤ c.importance ∧ c.importance ≤ 10) ∧
    ∃ q ∈ qs, c = normalizeQuestion q ∧
      (q.priority = none → c.importance = 7) ∧
      ∀ p, q.priority = some p → c.importance = max 1 (min 10 p) := by
  obtain ⟨q, hq, rfl⟩ := List.mem_map.mp h
  refine ⟨⟨?_, ?_⟩, q, hq, rfl, ?_, ?_⟩
  · simp only [normalizeQuestion]
    omega
  · simp only [normalizeQuestion]
    omega
  · intro hp
    simp [normalizeQuestion, hp]
  · intro p hp
    simp [normalizeQuestion, hp]

/-- Witness for C9 at a concrete question list (an absent priority and an
out-of-range priority). -/
theorem normalizeQuestions_importance_witness :
    (1 ≤ (normalizeQuestion ⟨"q1".data, "s1", none⟩).importance ∧
      (normalizeQuestion ⟨"q1".data, "s1", none⟩).importance ≤ 10) ∧
    ∃ q ∈ [BackendQuestion.mk "q1".data "s1" none,
           BackendQuestion.mk "q2".data "s2" (some 42)],
      normalizeQuestion ⟨"q1".data, "s1", none⟩ = normalizeQuestion q ∧
      (q.priority = none →
        (normalizeQuestion ⟨"q1".data, "s1", none⟩).importance = 7) ∧
      ∀ p, q.priority = some p →
        (normalizeQuestion ⟨"q1".data, "s1", none⟩).importance
          = max 1 (min 10 p) :=
  normalizeQuestions_importance
    [⟨"q1".data, "s1", none⟩, ⟨"q2".data, "s2", some 42⟩] _ (by decide)

/-- C10: `getProgressPercentage` is total and bounded: it returns `0` on an
empty clarification list (no division by zero), and whenever the completed
slots form a set of slot names of the clarification list, the result lies
in `[0, 100]`. -/
theorem getProgressPercentage_total_bounded (st : QState) :
    (st.clarifications = [] → getProgressPercentage st = 0) ∧
    (st.completedSlots.Nodup →
      (∀ s ∈ st.completedSlots,
        s ∈ st.clarifications.map Clarification.slot_name) →
      0 ≤ getProgressPercentage st ∧ getProgressPercentage st ≤ 100) := by
  constructor
  · intro h
    simp [getProgressPercentage, h]
  · intro hnd hsub
    by_cases h0 : st.clarifications.length = 0
    · simp [getProgressPercentage, h0]
    · have hlen : st.completedSlots.length ≤ st.clarifications.length := by
        have hsp := (hnd.subperm (fun s hs => hsub s hs)).length_le
        simpa using hsp
      have hnpos : (0 : ℚ) < (st.clarifications.length : ℚ) := by
        exact_mod_cast Nat.pos_of_ne_zero h0
      have hx0 : (0 : ℚ) ≤ ((st.completedSlots.length : ℚ)
          / (st.clarifications.length : ℚ)) * 100 := by positivity
      have hx1 : ((st.completedSlots.length : ℚ)
          / (st.clarifications.length : ℚ)) * 100 ≤ 100 := by
        have hdiv : (st.completedSlots.length : ℚ)
            / (st.clarifications.length : ℚ) ≤ 1 := by
          rw [div_le_one hnpos]
          exact_mod_cast hlen
        nlinarith
      unfold getProgressPercentage jsRound
      rw [if_neg h0]
      constructor
      · rw [Int.le_floor]
        push_cast
        linarith
      · have hfl : (⌊((st.completedSlots.length : ℚ)
            / (st.clarifications.length : ℚ)) * 100 + 1 / 2⌋ : ℤ)
            ≤ ⌊(100 : ℚ) + 1 / 2⌋ := by
          apply Int.floor_le_floor
          linarith
        have h100 : (⌊(100 : ℚ) + 1 / 2⌋ : ℤ) = 100 := by
          rw [Int.floor_eq_iff]; norm_num
        omega

/-- Witness for C10 at a concrete state: two clarifications, one
completed slot. -/
theorem getProgressPercentage_total_bounded_witness :
    0 ≤ getProgressPercentage
        ⟨[], [⟨"q1".data, none, "s1", 9, []⟩, ⟨"q2".data, none, "s2", 8, []⟩],
         ["s1"], ["s1"], false, false⟩ ∧
    getProgressPercentage
        ⟨[], [⟨"q1".data, none, "s1", 9, []⟩, ⟨"q2".data, none, "s2", 8, []⟩],
         ["s1"], ["s1"], false, false⟩ ≤ 100 :=
  (getProgressPercentage_total_bounded _).2 (by decide) (by decide)

/-- C5 counterexample: an event with id 1 arrives by push and then again
in one `get_event_history` poll response; `EelAPI.listen` invokes the
callback twice for that event id — there is no id-based client-side
deduplication. -/
theorem listen_duplicate_delivery_cex :
    deliveryCount (some "workflow.progress_updated")
      [ListenArrival.push ⟨1, "workflow.progress_updated"⟩,
       ListenArrival.pollBatch [⟨1, "workflow.progress_updated"⟩]] 1 = 2 := by
  decide

/-- C5 (amended): `EelAPI.listen` performs no deduplication at all: the
number of callback invocations carrying a given event id equals the total
number of matching occurrences of that id across pushed events and poll
responses — at-least-once delivery in which any replayed or re-pushed
event is delivered again. -/
theorem listen_delivery_count (topic : Option String)
    (arrs : List ListenArrival) (i : Nat) :
    deliveryCount topic arrs i
      = (arrs.map (arrivalMatchCount topic i)).sum := by
  induction arrs with
  | nil => rfl
  | cons a rest ih =>
    rw [List.map_cons, List.sum_cons, ← ih]
    unfold deliveryCount listenDeliveries
    rw [List.flatMap_cons, List.filter_append, List.length_append]
    congr 1
    cases a with
    | push ev =>
      cases hm : matchesTopic topic ev with
      | false => simp [arrivalMatchCount, hm]
      | true =>
        cases hi : ev.id == i with
        | false => simp [arrivalMatchCount, hm, hi]
        | true => simp [arrivalMatchCount, hm, hi]
    | pollBatch evs =>
      simp only [arrivalMatchCount, List.filter_filter]
      congr 1
      apply List.filter_congr
      intro ev _
      exact Bool.and_comm _ _

/-- C8: with a workflow session selected (truthy id), a
`workflow.progress_updated` event carrying a truthy but different
session id leaves the whole WorkspacePage state — logs and every agent's
status/progress/message — unchanged; contrapositively, an event with data
that does change the state either carries no (falsy) session id or
matches the selected session. -/
theorem progress_event_session_filter (ws : WState) (timeStr : String)
    (hsel : optStrTruthy ws.workflowSessionId = true) :
    (∀ d : ProgressData, optStrTruthy d.session_id = true →
      d.session_id ≠ ws.workflowSessionId →
      handleProgressEvent ws timeStr ⟨some d⟩ = ws) ∧
    (∀ d : ProgressData, handleProgressEvent ws timeStr ⟨some d⟩ ≠ ws →
      optStrTruthy d.session_id = false
        ∨ d.session_id = ws.workflowSessionId) := by
  have hframe : ∀ d : ProgressData, optStrTruthy d.session_id = true →
      d.session_id ≠ ws.workflowSessionId →
      handleProgressEvent ws timeStr ⟨some d⟩ = ws := by
    intro d h2 h3
    unfold handleProgressEvent
    simp [hsel, h2, h3]
  refine ⟨hframe, ?_⟩
  intro d hne
  by_contra hcon
  push_neg at hcon
  obtain ⟨h2, h3⟩ := hcon
  exact hne (hframe d (by simpa using h2) h3)

/-- Witness for C8 at a concrete state: selected session `"wf1"`, event
for session `"other"` changes nothing. -/
theorem progress_event_session_filter_witness :
    handleProgressEvent (initWState (some "wf1")) "t"
      ⟨some ⟨some "other", "stage", some 50, "msg"⟩⟩
      = initWState (some "wf1") :=
  (progress_event_session_filter (initWState (some "wf1")) "t"
    (by decide)).1 ⟨some "other", "stage", some 50, "msg"⟩
    (by decide) (by decide)

/-- The status/progress correlation maintained by the workspace handler:
`completed` at 100, `running` strictly between 0 and 100, `pending` at
0. -/
def statusMatchesProgress (a : AgentState) : Prop :=
  (a.status = AgentStatus.completed ↔ a.progress = 100) ∧
  (a.status = AgentStatus.running ↔ (0 < a.progress ∧ a.progress < 100)) ∧
  (a.status = AgentStatus.pending ↔ a.progress = 0)

/-- Full per-agent invariant: bounded progress plus the status
correlation. -/
def AgentInv (a : AgentState) : Prop :=
  0 ≤ a.progress ∧ a.progress ≤ 100 ∧ statusMatchesProgress a

theorem agentInv_updateAgent (p : Int) (msg : String) {a : AgentState}
    (h : AgentInv a) : AgentInv (updateAgent p msg a) := by
  obtain ⟨h0, h1, _⟩ := h
  unfold AgentInv statusMatchesProgress updateAgent
  dsimp only
  split_ifs with hge hpos
  · refine ⟨by omega, by omega, ?_, ?_, ?_⟩ <;> simp <;> omega
  · refine ⟨by omega, by omega, ?_, ?_, ?_⟩ <;> simp <;> omega
  · refine ⟨by omega, by omega, ?_, ?_, ?_⟩ <;> simp <;> omega

theorem updateAgent_progress_mono (p : Int) (msg : String) {a : AgentState}
    (h : AgentInv a) : a.progress ≤ (updateAgent p msg a).progress := by
  obtain ⟨h0, h1, _⟩ := h
  unfold updateAgent
  dsimp only
  omega

theorem agentInv_step {ws : WState} (timeStr : String) (ev : ProgressEvent)
    (h : ∀ a ∈ ws.agentStates, AgentInv a) :
    ∀ a ∈ (handleProgressEvent ws timeStr ev).agentStates, AgentInv a := by
  unfold handleProgressEvent
  cases ev.data with
  | none => exact h
  | some d =>
    dsimp only
    by_cases hg : (optStrTruthy ws.workflowSessionId
        && optStrTruthy d.session_id
        && !(d.session_id == ws.workflowSessionId)) = true
    · rw [if_pos hg]
      exact h
    · rw [if_neg hg]
      intro a ha
      obtain ⟨b, hb, rfl⟩ := List.mem_map.mp ha
      exact agentInv_updateAgent _ _ (h b hb)

theorem agentInv_fold (ws : WState)
    (evs : List (String × ProgressEvent))
    (h : ∀ a ∈ ws.agentStates, AgentInv a) :
    ∀ a ∈ (applyProgressEvents ws evs).agentStates, AgentInv a := by
  induction evs generalizing ws with
  | nil => exact h
  | cons e rest ih => exact ih _ (agentInv_step e.1 e.2 h)

theorem agentInv_init : ∀ a ∈ initAgentStates, AgentInv a := by
  intro a ha
  fin_cases ha <;>
    exact ⟨by decide, by decide, by decide, by decide, by decide⟩

theorem handler_agentStates_shape (ws : WState) (timeStr : String)
    (ev : ProgressEvent) :
    (handleProgressEvent ws timeStr ev).agentStates = ws.agentStates ∨
    ∃ p msg, (handleProgressEvent ws timeStr ev).agentStates
      = ws.agentStates.map (updateAgent p msg) := by
  unfold handleProgressEvent
  cases ev.data with
  | none => exact Or.inl rfl
  | some d =>
    dsimp only
    by_cases hg : (optStrTruthy ws.workflowSessionId
        && optStrTruthy d.session_id
        && !(d.session_id == ws.workflowSessionId)) = true
    · rw [if_pos hg]
      exact Or.inl rfl
    · rw [if_neg hg]
      exact Or.inr ⟨numOrZero d.progress, d.message, rfl⟩

theorem handler_progress_mono (ws : WState) (timeStr : String)
    (ev : ProgressEvent) (hinv : ∀ a ∈ ws.agentStates, AgentInv a)
    (i : Nat) (a b : AgentState)
    (ha : ws.agentStates[i]? = some a)
    (hb : (handleProgressEvent ws timeStr ev).agentStates[i]? = some b) :
    a.progress ≤ b.progress := by
  rcases handler_agentStates_shape ws timeStr ev with heq | ⟨p, msg, heq⟩
  · rw [heq, ha] at hb
    injection hb with hb'
    rw [← hb']
  · rw [heq, List.getElem?_map, ha] at hb
    injection hb with hb'
    rw [← hb']
    exact updateAgent_progress_mono p msg
      (hinv a (List.getElem?_mem ha))

/-- C7: over any sequence of `workflow.progress_updated` events (including
negative, over-100 or non-numeric progress payloads), every agent card
keeps its stored progress within 0–100 with the status `completed` exactly
at 100, `running` strictly between 0 and 100 and `pending` at 0; and one
further event never decreases any agent's stored progress. -/
theorem workspace_progress_invariant (wf : Option String)
    (evs : List (String × ProgressEvent)) (timeStr : String)
    (ev : ProgressEvent) :
    (∀ a ∈ (applyProgressEvents (initWState wf) evs).agentStates,
      AgentInv a) ∧
    ∀ (i : Nat)
      (h1 : i < (applyProgressEvents (initWState wf) evs).agentStates.length)
      (h2 : i < (handleProgressEvent (applyProgressEvents (initWState wf) evs)
        timeStr ev).agentStates.length),
      (((applyProgressEvents (initWState wf) evs).agentStates.get
          ⟨i, h1⟩).progress)
        ≤ (((handleProgressEvent (applyProgressEvents (initWState wf) evs)
          timeStr ev).agentStates.get ⟨i, h2⟩).progress) := by
  have hinv := agentInv_fold (initWState wf) evs agentInv_init
  refine ⟨hinv, ?_⟩
  intro i h1 h2
  exact handler_progress_mono _ timeStr ev hinv i _ _
    (List.getElem?_eq_getElem h1) (List.getElem?_eq_getElem h2)

/-- Witness for C7: one event (progress 150 for the selected session)
starting from the initial state; agent card 0 keeps monotone bounded
progress. -/
theorem workspace_progress_invariant_witness :
    ((applyProgressEvents (initWState (some "w"))
        [("t1", ⟨some ⟨some "w", "clarify", some 150, "m1"⟩⟩)]).agentStates.get
      ⟨0, by decide⟩).progress
      ≤ ((handleProgressEvent
          (applyProgressEvents (initWState (some "w"))
            [("t1", ⟨some ⟨some "w", "clarify", some 150, "m1"⟩⟩)])
          "t2" ⟨some ⟨some "w", "verify", some (-3), "m2"⟩⟩).agentStates.get
        ⟨0, by decide⟩).progress :=
  (workspace_progress_invariant (some "w")
    [("t1", ⟨some ⟨some "w", "clarify", some 150, "m1"⟩⟩)]
    "t2" ⟨some ⟨some "w", "verify", some (-3), "m2"⟩⟩).2 0
    (by decide) (by decide)

/-- A bot question message: a non-important bot message carrying a
clarification slot id. -/
def isBotQuestion (m : ChatMessage) : Bool :=
  m.type == MsgType.bot && !m.isImportant && m.clarificationId.isSome

/-- No two bot question messages of the history have normalized-equal
texts. -/
def NoDupQuestionTexts (msgs : List ChatMessage) : Prop :=
  msgs.Pairwise (fun m₁ m₂ =>
    isBotQuestion m₁ = true → isBotQuestion m₂ = true →
      normalize m₁.content ≠ normalize m₂.content)

/-- Fold a sequence of `pushQuestionIfNew` insertions over the state. -/
def applyPushes (st : QState) (steps : List (String × List Char × Nat)) :
    QState :=
  steps.foldl (fun s p => (pushQuestionIfNew s p.1 p.2.1 p.2.2).1) st

theorem noDup_pushQuestionIfNew (st : QState) (slot : String)
    (text : List Char) (now : Nat) (h : NoDupQuestionTexts st.messages) :
    NoDupQuestionTexts ((pushQuestionIfNew st slot text now).1).messages := by
  unfold pushQuestionIfNew
  by_cases h1 : (slot == "" || text.isEmpty) = true
  · rw [if_pos h1]
    exact h
  · rw [if_neg h1]
    dsimp only
    by_cases h2 : (st.askedSlots.contains slot
        || st.completedSlots.contains slot
        || st.messages.any (isDupBotText (normalize text))) = true
    · rw [if_pos h2]
      exact h
    · rw [if_neg h2]
      dsimp only
      unfold NoDupQuestionTexts at h ⊢
      rw [List.pairwise_append]
      refine ⟨h, List.pairwise_singleton _ _, ?_⟩
      intro m hm q hq hbm hbq
      simp only [List.mem_singleton] at hq
      subst hq
      have hany : st.messages.any (isDupBotText (normalize text)) = false := by
        cases hA : st.messages.any (isDupBotText (normalize text)) with
        | false => rfl
        | true => exact absurd (by rw [hA]; simp) h2
      have hm' : isDupBotText (normalize text) m = false := by
        have := List.any_eq_false.mp hany
        exact Bool.eq_false_iff.mpr (this m hm)
      intro hEq
      unfold isDupBotText at hm'
      unfold isBotQuestion at hbm
      simp only [Bool.and_eq_true] at hbm
      rw [hbm.1.1, hbm.1.2] at hm'
      simp only [Bool.true_and] at hm'
      have hmt : normalize m.content = normalize text := by
        simpa [questionMessage] using hEq
      rw [hmt] at hm'
      simp at hm'

theorem pushQuestionIfNew_blocked (st : QState) (slot : String)
    (text : List Char) (now : Nat)
    (h : slot ∈ st.askedSlots ∨ slot ∈ st.completedSlots) :
    pushQuestionIfNew st slot text now = (st, false) := by
  unfold pushQuestionIfNew
  by_cases h1 : (slot == "" || text.isEmpty) = true
  · rw [if_pos h1]
  · rw [if_neg h1]
    dsimp only
    rw [if_pos]
    rcases h with h | h
    · have hc : st.askedSlots.contains slot = true :=
        List.elem_eq_true_of_mem h
      rw [hc]
      simp
    · have hc : st.completedSlots.contains slot = true :=
        List.elem_eq_true_of_mem h
      rw [hc]
      simp

/-- C1: over any sequence of `pushQuestionIfNew` insertions starting from
a history without duplicate bot question texts, no two bot question
messages with normalized-equal texts are ever present; and a question for
a slot already asked or completed is never inserted (the call leaves the
state unchanged and reports `false`). -/
theorem clarification_no_duplicate_questions (st : QState)
    (steps : List (String × List Char × Nat))
    (hinv : NoDupQuestionTexts st.messages) :
    NoDupQuestionTexts (applyPushes st steps).messages ∧
    ∀ slot text now, (slot ∈ st.askedSlots ∨ slot ∈ st.completedSlots) →
      pushQuestionIfNew st slot text now = (st, false) := by
  constructor
  · induction steps generalizing st with
    | nil => exact hinv
    | cons p rest ih =>
      exact ih _ (noDup_pushQuestionIfNew st p.1 p.2.1 p.2.2 hinv)
  · intro slot text now h
    exact pushQuestionIfNew_blocked st slot text now h

/-- Witness for C1: a concrete session in which the second step repeats
the first question's text (up to case/punctuation) under a fresh slot id,
and a push for an already-asked slot. -/
theorem clarification_no_duplicate_questions_witness :
    NoDupQuestionTexts
      (applyPushes ⟨[], [], [], ["a"], false, false⟩
        [("b", "Ready?".data, 1), ("c", "ready".data, 2)]).messages ∧
    ∀ slot text now,
      (slot ∈ (QState.mk [] [] [] ["a"] false false).askedSlots ∨
        slot ∈ (QState.mk [] [] [] ["a"] false false).completedSlots) →
      pushQuestionIfNew ⟨[], [], [], ["a"], false, false⟩ slot text now
        = (⟨[], [], [], ["a"], false, false⟩, false) :=
  clarification_no_duplicate_questions ⟨[], [], [], ["a"], false, false⟩
    [("b", "Ready?".data, 1), ("c", "ready".data, 2)]
    (by unfold NoDupQuestionTexts; exact List.Pairwise.nil)

theorem length_insertByImportance (c : Clarification)
    (l : List Clarification) :
    (insertByImportance c l).length = l.length + 1 := by
  induction l with
  | nil => rfl
  | cons d ds ih =>
    unfold insertByImportance
    split
    · simp
    · simp only [List.length_cons, ih]

theorem length_sortByImportanceDesc (l : List Clarification) :
    (sortByImportanceDesc l).length = l.length := by
  induction l with
  | nil => rfl
  | cons c cs ih =>
    unfold sortByImportanceDesc
    rw [length_insertByImportance, ih, List.length_cons]

theorem sortDesc_head_argmax (l : List Clarification) (c : Clarification)
    (h : (sortByImportanceDesc l).head? = some c) :
    (∀ d ∈ l, d.importance ≤ c.importance) ∧
    ∃ pre post, l = pre ++ c :: post ∧
      ∀ d ∈ pre, d.importance < c.importance := by
  induction l generalizing c with
  | nil => simp [sortByImportanceDesc] at h
  | cons x xs ih =>
    unfold sortByImportanceDesc at h
    cases hs : sortByImportanceDesc xs with
    | nil =>
      have hxs : xs = [] := by
        have := length_sortByImportanceDesc xs
        rw [hs] at this
        exact List.length_eq_zero.mp this.symm
      subst hxs
      rw [hs] at h
      unfold insertByImportance at h
      simp only [List.head?_cons, Option.some.injEq] at h
      subst h
      refine ⟨?_, [], [], rfl, ?_⟩
      · intro d hd
        simp only [List.mem_singleton] at hd
        subst hd
        exact le_refl _
      · intro d hd
        simp at hd
    | cons c' rest =>
      have ih' := ih c' (by rw [hs]; rfl)
      rw [hs] at h
      unfold insertByImportance at h
      by_cases hge : c'.importance ≤ x.importance
      · rw [if_pos hge] at h
        simp only [List.head?_cons, Option.some.injEq] at h
        subst h
        refine ⟨?_, [], xs, rfl, ?_⟩
        · intro d hd
          rcases List.mem_cons.mp hd with rfl | hd
          · exact le_refl _
          · exact le_trans (ih'.1 d hd) hge
        · intro d hd
          simp at hd
      · rw [if_neg hge] at h
        simp only [List.head?_cons, Option.some.injEq] at h
        subst h
        obtain ⟨hle, pre, post, hdec, hpre⟩ := ih'
        refine ⟨?_, x :: pre, post, by rw [hdec]; simp, ?_⟩
        · intro d hd
          rcases List.mem_cons.mp hd with rfl | hd
          · omega
          · exact hle d hd
        · intro d hd
          rcases List.mem_cons.mp hd with rfl | hd
          · omega
          · exact hpre d hd

/-- C2: whenever `askNextQuestion` selects a next question from the
unanswered clarifications, the selected clarification has maximal
importance among them, and it is the earliest such clarification in
catalog order (`unansweredOf` is the order-preserving restriction of the
catalog list to unanswered slots, and every clarification strictly before
the selected one has strictly smaller importance). -/
theorem selectNext_highest_importance (st : QState) (c : Clarification)
    (h : selectNextClarification st = some c) :
    (∀ d ∈ unansweredOf st, d.importance ≤ c.importance) ∧
    ∃ pre post, unansweredOf st = pre ++ c :: post ∧
      ∀ d ∈ pre, d.importance < c.importance :=
  sortDesc_head_argmax (unansweredOf st) c h

/-- Witness for C2 at a concrete state: importances 7, 9, 9 — the first
9-importance clarification (catalog order) is selected. -/
theorem selectNext_highest_importance_witness :
    (∀ d ∈ unansweredOf
        ⟨[], [⟨"q1".data, none, "s1", 7, []⟩, ⟨"q2".data, none, "s2", 9, []⟩,
          ⟨"q3".data, none, "s3", 9, []⟩], [], [], false, false⟩,
      d.importance ≤ (Clarification.mk "q2".data none "s2" 9 []).importance) ∧
    ∃ pre post, unansweredOf
        ⟨[], [⟨"q1".data, none, "s1", 7, []⟩, ⟨"q2".data, none, "s2", 9, []⟩,
          ⟨"q3".data, none, "s3", 9, []⟩], [], [], false, false⟩
        = pre ++ ⟨"q2".data, none, "s2", 9, []⟩ :: post ∧
      ∀ d ∈ pre,
        d.importance < (Clarification.mk "q2".data none "s2" 9 []).importance :=
  selectNext_highest_importance
    ⟨[], [⟨"q1".data, none, "s1", 7, []⟩, ⟨"q2".data, none, "s2", 9, []⟩,
      ⟨"q3".data, none, "s3", 9, []⟩], [], [], false, false⟩
    ⟨"q2".data, none, "s2", 9, []⟩ (by decide)

/-! ## Frame lemmas for the submission pipeline -/

theorem clar_push (st : QState) (t : String) (text : List Char) (now : Nat) :
    ((pushQuestionIfNew st t text now).1).clarifications
      = st.clarifications := by
  unfold pushQuestionIfNew
  split
  · rfl
  · dsimp only
    split
    · rfl
    · rfl

theorem completed_push (st : QState) (t : String) (text : List Char)
    (now : Nat) :
    ((pushQuestionIfNew st t text now).1).completedSlots
      = st.completedSlots := by
  unfold pushQuestionIfNew
  split
  · rfl
  · dsimp only
    split
    · rfl
    · rfl

theorem asked_push_mem {s : String} (st : QState) (t : String)
    (text : List Char) (now : Nat) (h : s ∈ st.askedSlots) :
    s ∈ ((pushQuestionIfNew st t text now).1).askedSlots := by
  unfold pushQuestionIfNew
  split
  · exact h
  · dsimp only
    split
    · exact h
    · exact List.mem_append_left _ h

theorem clar_pushSuggestions (st : QState) (c : Clarification) (now : Nat) :
    (pushSuggestions st c now).clarifications = st.clarifications := by
  unfold pushSuggestions
  split
  · rfl
  · rfl

theorem completed_pushSuggestions (st : QState) (c : Clarification)
    (now : Nat) :
    (pushSuggestions st c now).completedSlots = st.completedSlots := by
  unfold pushSuggestions
  split
  · rfl
  · rfl

theorem clar_askNext (st : QState) (now : Nat) :
    (askNextQuestion st now).clarifications = st.clarifications := by
  unfold askNextQuestion
  cases selectNextClarification st with
  | none => rfl
  | some c =>
    dsimp only
    split
    · rw [clar_pushSuggestions]
      split
      · rw [clar_push]
      · rw [clar_push]
    · split
      · rw [clar_push]
      · rw [clar_push]

theorem completed_askNext (st : QState) (now : Nat) :
    (askNextQuestion st now).completedSlots = st.completedSlots := by
  unfold askNextQuestion
  cases selectNextClarification st with
  | none => rfl
  | some c =>
    dsimp only
    split
    · rw [completed_pushSuggestions]
      split
      · rw [completed_push]
      · rw [completed_push]
    · split
      · rw [completed_push]
      · rw [completed_push]

theorem clar_afterSubmit (st : QState) (b : Bool) (now : Nat) :
    (afterSubmit st b now).clarifications = st.clarifications := by
  unfold afterSubmit
  dsimp only
  split
  · rw [clar_askNext]
  · rfl

theorem completed_afterSubmit (st : QState) (b : Bool) (now : Nat) :
    (afterSubmit st b now).completedSlots = st.completedSlots := by
  unfold afterSubmit
  dsimp only
  split
  · rw [completed_askNext]
  · rfl

/-- The bot question messages for a given slot present in a history. -/
def questionMsgsFor (s : String) (msgs : List ChatMessage) :
    List ChatMessage :=
  msgs.filter (fun m => m.clarificationId == some s)

theorem qmsgs_append_other {s : String} (msgs : List ChatMessage)
    (m : ChatMessage) (hm : (m.clarificationId == some s) = false) :
    questionMsgsFor s (msgs ++ [m]) = questionMsgsFor s msgs := by
  unfold questionMsgsFor
  rw [List.filter_append]
  simp [hm]

theorem qmsgs_push {s : String} (st : QState) (t : String)
    (text : List Char) (now : Nat)
    (h : s ∈ st.askedSlots ∨ s ∈ st.completedSlots) :
    questionMsgsFor s ((pushQuestionIfNew st t text now).1).messages
      = questionMsgsFor s st.messages := by
  by_cases hts : t = s
  · subst hts
    rw [pushQuestionIfNew_blocked st t text now h]
  · unfold pushQuestionIfNew
    split
    · rfl
    · dsimp only
      split
      · rfl
      · dsimp only
        apply qmsgs_append_other
        simp [questionMessage, hts]

theorem qmsgs_finish {s : String} (st : QState) :
    questionMsgsFor s (finishClarificationStep st).messages
      = questionMsgsFor s st.messages := by
  unfold finishClarificationStep
  apply qmsgs_append_other
  simp [completionMessage]

theorem qmsgs_pushSuggestions {s : String} (st : QState)
    (c : Clarification) (now : Nat) :
    questionMsgsFor s (pushSuggestions st c now).messages
      = questionMsgsFor s st.messages := by
  unfold pushSuggestions
  split
  · rfl
  · apply qmsgs_append_other
    simp [suggestionsMessage]

theorem qmsgs_askNext {s : String} (st : QState) (now : Nat)
    (h : s ∈ st.askedSlots ∨ s ∈ st.completedSlots) :
    questionMsgsFor s (askNextQuestion st now).messages
      = questionMsgsFor s st.messages := by
  unfold askNextQuestion
  cases selectNextClarification st with
  | none => exact qmsgs_finish st
  | some c =>
    dsimp only
    split
    · rw [qmsgs_pushSuggestions]
      split
      · rw [qmsgs_push st c.slot_name c.question now h]
      · rw [qmsgs_push st c.slot_name c.question now h]
    · split
      · rw [qmsgs_push st c.slot_name c.question now h]
      · rw [qmsgs_push st c.slot_name c.question now h]

theorem qmsgs_afterSubmit {s : String} (st : QState) (b : Bool) (now : Nat)
    (h : s ∈ st.askedSlots ∨ s ∈ st.completedSlots) :
    questionMsgsFor s (afterSubmit st b now).messages
      = questionMsgsFor s st.messages := by
  unfold afterSubmit
  dsimp only
  split
  · exact qmsgs_askNext _ now h
  · rfl

theorem overwriteAnswer_idem (s : String) (ans : List Char)
    (c : Clarification) :
    overwriteAnswer s ans (overwriteAnswer s ans c)
      = overwriteAnswer s ans c := by
  unfold overwriteAnswer
  by_cases h : (c.slot_name == s) = true
  · simp [h]
  · simp only [Bool.not_eq_true] at h
    simp [h]

theorem map_overwrite_idem (s : String) (ans : List Char)
    (l : List Clarification) :
    (l.map (overwriteAnswer s ans)).map (overwriteAnswer s ans)
      = l.map (overwriteAnswer s ans) := by
  induction l with
  | nil => rfl
  | cons c cs ih => simp [overwriteAnswer_idem, ih]

theorem mem_completed_record (st1 : QState) (s : String) (ans : List Char) :
    s ∈ (recordAnswer st1 s ans).completedSlots := by
  unfold recordAnswer
  dsimp only
  by_cases h : st1.completedSlots.contains s = true
  · rw [if_pos h]
    exact List.mem_of_elem_eq_true h
  · rw [if_neg h]
    exact List.mem_append_right _ (List.mem_singleton_self s)

theorem handleSendMessage_clarifications (st : QState) (input : List Char)
    (res : Option SubmitResult) (now : Nat) (s : String)
    (h1 : (trimWS input).isEmpty = false) (h2 : st.isCompleted = false)
    (h3 : currentSlot st.messages = some s) :
    (handleSendMessage st input res now).clarifications
      = st.clarifications.map (overwriteAnswer s (trimWS input)) := by
  unfold handleSendMessage
  have hcond : ¬(((trimWS input).isEmpty || st.isCompleted) = true) := by
    rw [h1, h2]
    simp
  rw [if_neg hcond, h3]
  dsimp only
  cases res with
  | none =>
    rw [clar_afterSubmit]
    rfl
  | some r =>
    dsimp only
    by_cases hsucc : (!r.success) = true
    · rw [if_pos hsucc, clar_afterSubmit]
      rfl
    · rw [if_neg hsucc]
      cases hnq : r.next_question with
      | some nq =>
        dsimp only
        rw [clar_afterSubmit, clar_push]
        rfl
      | none =>
        dsimp only
        by_cases hcomp : r.completed = true
        · rw [if_pos hcomp]
          rfl
        · rw [if_neg hcomp, clar_afterSubmit]
          rfl

theorem handleSendMessage_completedSlots (st : QState) (input : List Char)
    (res : Option SubmitResult) (now : Nat) (s : String)
    (h1 : (trimWS input).isEmpty = false) (h2 : st.isCompleted = false)
    (h3 : currentSlot st.messages = some s) :
    (handleSendMessage st input res now).completedSlots
      = (if st.completedSlots.contains s then st.completedSlots
         else st.completedSlots ++ [s]) := by
  unfold handleSendMessage
  have hcond : ¬(((trimWS input).isEmpty || st.isCompleted) = true) := by
    rw [h1, h2]
    simp
  rw [if_neg hcond, h3]
  dsimp only
  cases res with
  | none =>
    rw [completed_afterSubmit]
    rfl
  | some r =>
    dsimp only
    by_cases hsucc : (!r.success) = true
    · rw [if_pos hsucc, completed_afterSubmit]
      rfl
    · rw [if_neg hsucc]
      cases hnq : r.next_question with
      | some nq =>
        dsimp only
        rw [completed_afterSubmit, completed_push]
        rfl
      | none =>
        dsimp only
        by_cases hcomp : r.completed = true
        · rw [if_pos hcomp]
          rfl
        · rw [if_neg hcomp, completed_afterSubmit]
          rfl

theorem handleSendMessage_qmsgs (st : QState) (input : List Char)
    (res : Option SubmitResult) (now : Nat) (s : String)
    (h1 : (trimWS input).isEmpty = false) (h2 : st.isCompleted = false)
    (h3 : currentSlot st.messages = some s) :
    questionMsgsFor s (handleSendMessage st input res now).messages
      = questionMsgsFor s st.messages := by
  unfold handleSendMessage
  have hcond : ¬(((trimWS input).isEmpty || st.isCompleted) = true) := by
    rw [h1, h2]
    simp
  rw [if_neg hcond, h3]
  dsimp only
  have huser : questionMsgsFor s
      ({ st with messages := st.messages ++ [userMessage input now] } :
        QState).messages = questionMsgsFor s st.messages := by
    apply qmsgs_append_other
    simp [userMessage]
  have hmem2 : s ∈ (recordAnswer
      { st with messages := st.messages ++ [userMessage input now] } s
      (trimWS input)).completedSlots :=
    mem_completed_record _ s _
  cases res with
  | none =>
    rw [qmsgs_afterSubmit _ _ _ (Or.inr hmem2)]
    exact huser
  | some r =>
    dsimp only
    by_cases hsucc : (!r.success) = true
    · rw [if_pos hsucc, qmsgs_afterSubmit _ _ _ (Or.inr hmem2)]
      exact huser
    · rw [if_neg hsucc]
      cases hnq : r.next_question with
      | some nq =>
        dsimp only
        have hmem3 : s ∈ ((pushQuestionIfNew
            (recordAnswer
              { st with messages := st.messages ++ [userMessage input now] }
              s (trimWS input)) nq.slot_name nq.question
            now).1).completedSlots := by
          rw [completed_push]
          exact hmem2
        rw [qmsgs_afterSubmit _ _ _ (Or.inr hmem3),
          qmsgs_push _ _ _ _ (Or.inr hmem2)]
        exact huser
      | none =>
        dsimp only
        by_cases hcomp : r.completed = true
        · rw [if_pos hcomp, qmsgs_finish]
          exact huser
        · rw [if_neg hcomp, qmsgs_afterSubmit _ _ _ (Or.inr hmem2)]
          exact huser

/-- C3: submitting an answer for the current slot `s` overwrites exactly
that slot's stored answer (all other clarifications unchanged, by the
pointwise `overwriteAnswer` map) and inserts no further question message
for `s` into the chat; and a second submission of the same input for the
same slot leaves the clarification state — stored answers, completed
slots, and the question messages for `s` — equal to that after the first
submission. -/
theorem submit_overwrite_idempotent (st : QState) (input : List Char)
    (res : Option SubmitResult) (now : Nat) (s : String)
    (h1 : (trimWS input).isEmpty = false) (h2 : st.isCompleted = false)
    (h3 : currentSlot st.messages = some s) :
    ((handleSendMessage st input res now).clarifications
        = st.clarifications.map (overwriteAnswer s (trimWS input))) ∧
    (questionMsgsFor s (handleSendMessage st input res now).messages
        = questionMsgsFor s st.messages) ∧
    (∀ (res' : Option SubmitResult) (now' : Nat),
      currentSlot (handleSendMessage st input res now).messages = some s →
      (handleSendMessage (handleSendMessage st input res now) input res'
          now').clarifications
        = (handleSendMessage st input res now).clarifications ∧
      (handleSendMessage (handleSendMessage st input res now) input res'
          now').completedSlots
        = (handleSendMessage st input res now).completedSlots ∧
      questionMsgsFor s (handleSendMessage
          (handleSendMessage st input res now) input res' now').messages
        = questionMsgsFor s (handleSendMessage st input res now).messages) := by
  refine ⟨handleSendMessage_clarifications st input res now s h1 h2 h3,
    handleSendMessage_qmsgs st input res now s h1 h2 h3, ?_⟩
  intro res' now' h3'
  by_cases hc : (handleSendMessage st input res now).isCompleted = true
  · have hnoop : handleSendMessage (handleSendMessage st input res now)
        input res' now' = handleSendMessage st input res now := by
      set stx := handleSendMessage st input res now with hstx
      unfold handleSendMessage
      rw [if_pos (by rw [hc]; simp)]
    rw [hnoop]
    exact ⟨rfl, rfl, rfl⟩
  · have hc' : (handleSendMessage st input res now).isCompleted = false :=
      Bool.eq_false_iff.mpr hc
    refine ⟨?_, ?_, ?_⟩
    · rw [handleSendMessage_clarifications _ input res' now' s h1 hc' h3',
        handleSendMessage_clarifications st input res now s h1 h2 h3,
        map_overwrite_idem]
    · rw [handleSendMessage_completedSlots _ input res' now' s h1 hc' h3']
      have hsin : s ∈ (handleSendMessage st input res now).completedSlots := by
        rw [handleSendMessage_completedSlots st input res now s h1 h2 h3]
        by_cases h : st.completedSlots.contains s = true
        · rw [if_pos h]
          exact List.mem_of_elem_eq_true h
        · rw [if_neg h]
          exact List.mem_append_right _ (List.mem_singleton_self s)
      rw [if_pos (List.elem_eq_true_of_mem hsin)]
    · exact handleSendMessage_qmsgs _ input res' now' s h1 hc' h3'

/-- Witness for C3 at a concrete state: one asked question for slot
`"s1"`, answered with `"yes"`, no backend response. -/
theorem submit_overwrite_idempotent_witness :
    (handleSendMessage
        ⟨[⟨"question-s1-5", MsgType.bot, "Q?".data, some "s1", false⟩],
         [⟨"Q?".data, none, "s1", 9, []⟩], [], ["s1"], false, false⟩
        "yes".data none 10).clarifications
      = (QState.mk
          [⟨"question-s1-5", MsgType.bot, "Q?".data, some "s1", false⟩]
          [⟨"Q?".data, none, "s1", 9, []⟩] [] ["s1"] false
          false).clarifications.map
        (overwriteAnswer "s1" (trimWS "yes".data)) :=
  (submit_overwrite_idempotent
    ⟨[⟨"question-s1-5", MsgType.bot, "Q?".data, some "s1", false⟩],
     [⟨"Q?".data, none, "s1", 9, []⟩], [], ["s1"], false, false⟩
    "yes".data none 10 "s1" (by decide) (by decide) (by decide)).1

theorem spec_record_name (slot_name : String) (ans : List Char)
    (sl : SpecSlot) :
    ((if sl.name == slot_name then { sl with answer := some ans }
      else sl) : SpecSlot).name = sl.name := by
  split
  · rfl
  · rfl

theorem spec_filter_unasked_record (sess : SpecClarSession)
    (slot_name : String) (ans : List Char)
    (hnone : sess.slots.filter
      (fun sl => !(sess.asked.contains sl.name)) = []) :
    (sess.slots.map (fun sl => if sl.name == slot_name
        then { sl with answer := some ans } else sl)).filter
      (fun sl => !(sess.asked.contains sl.name)) = [] := by
  rw [List.filter_map]
  have hcongr : sess.slots.filter
      ((fun sl => !(sess.asked.contains sl.name)) ∘
        (fun sl => if sl.name == slot_name
          then { sl with answer := some ans } else sl))
      = sess.slots.filter (fun sl => !(sess.asked.contains sl.name)) := by
    apply List.filter_congr
    intro sl _
    simp only [Function.comp_apply, spec_record_name]
  rw [hcongr, hnone]
  rfl

/-- C4 (modelled from the spec): when recording the answer leaves no
unasked slot, the backend `submit_answer` returns `completed = true` with
no further question, and it does not auto-invoke `finish`: the resulting
session keeps its previous status (still `collecting` for an active
session) and its asked set; only the separate `spec_finish` call freezes
the session. -/
theorem spec_submit_answer_completed (sess : SpecClarSession)
    (slot_name : String) (ans : List Char)
    (hknown : (sess.slots.all (fun sl => !(sl.name == slot_name))) = false)
    (hnone : sess.slots.filter
      (fun sl => !(sess.asked.contains sl.name)) = []) :
    ∃ sess₁, spec_submit_answer sess slot_name ans
        = some (sess₁, none, true)
      ∧ sess₁.status = sess.status ∧ sess₁.asked = sess.asked
      ∧ (sess.status = SpecStatus.collecting →
          sess₁.status ≠ SpecStatus.completed) := by
  unfold spec_submit_answer
  rw [if_neg (by rw [hknown]; simp)]
  dsimp only
  have hsel : specSelectNext { sess with
      slots := sess.slots.map (fun sl => if sl.name == slot_name
        then { sl with answer := some ans } else sl) } = none := by
    unfold specSelectNext
    dsimp only
    rw [spec_filter_unasked_record sess slot_name ans hnone]
    rfl
  rw [hsel]
  refine ⟨_, rfl, rfl, rfl, ?_⟩
  intro hcoll
  dsimp only
  rw [hcoll]
  intro hcontra
  exact SpecStatus.noConfusion hcontra

/-- Witness for C4 at a concrete one-slot session whose only slot has been
asked. -/
theorem spec_submit_answer_completed_witness :
    ∃ sess₁, spec_submit_answer
        ⟨[⟨"s1", 9, "Q1".data, none⟩], ["s1"], SpecStatus.collecting⟩
        "s1" "a".data
        = some (sess₁, none, true)
      ∧ sess₁.status = SpecStatus.collecting
      ∧ sess₁.asked = ["s1"]
      ∧ (SpecStatus.collecting = SpecStatus.collecting →
          sess₁.status ≠ SpecStatus.completed) :=
  spec_submit_answer_completed
    ⟨[⟨"s1", 9, "Q1".data, none⟩], ["s1"], SpecStatus.collecting⟩
    "s1" "a".data (by decide) (by decide)

end MAgent
